import Mathlib

/-!
Verification of the tally Dockerfile linter (github.com/tinovyatkin/tally).

This development shallowly embeds the parts of the Go source that the checked
properties are about: the `max-lines` rule, the DL3023/DL3024 construction
checks, the DL4006 (set pipefail) rule with its per-stage state machine and
suggested fix, the StageNameCasing fix enricher, the line counter of the
parser adapter, and the shell package's command-name fallback.

Go machine integers are embedded as `Int` (or `Nat` where the source only
ever holds non-negative values), Go strings as Lean `String` / `List Char`
(byte-level behaviour on the ASCII range, which is all the checked claims
exercise), Go `map[string]int` as association lists with first-binding
lookup, and fallible results as `Option`.

External library code (BuildKit's Dockerfile parser, the mvdan.cc shell
parser) is modelled as oracles/parameters; repository code whose
implementation file is not part of the provided sources is modelled from the
specification and marked `Modelled from the spec:` in its doc comment.
-/

namespace Tally

/-! ### Character and string helpers mirroring Go's standard library -/

/-- The newline character, named to keep escape sequences out of patterns. -/
def nlCh : Char := Char.ofNat 10

/-- The carriage-return character. -/
def crCh : Char := Char.ofNat 13

/-- The backslash character. -/
def bsCh : Char := Char.ofNat 92

/-- The single-quote character. -/
def sqCh : Char := Char.ofNat 39

/-- The backtick character. -/
def btCh : Char := Char.ofNat 96

/-- Go `unicode.IsSpace` restricted to the ASCII range: space, TAB, LF, VT,
FF, CR.  All inputs exercised by the claims are ASCII. -/
def goIsSpace (c : Char) : Bool :=
  c = ' ' || c = Char.ofNat 9 || c = nlCh || c = Char.ofNat 11 ||
    c = Char.ofNat 12 || c = crCh

/-- ASCII lowercasing of a single character, as Go `strings.ToLower` acts on
the ASCII range. -/
def lowerChar (c : Char) : Char :=
  if 'A' ≤ c && c ≤ 'Z' then Char.ofNat (c.toNat + 32) else c

/-- ASCII uppercasing of a single character, as Go `strings.ToUpper` acts on
the ASCII range. -/
def upperChar (c : Char) : Char :=
  if 'a' ≤ c && c ≤ 'z' then Char.ofNat (c.toNat - 32) else c

/-- Go `strings.ToLower` (ASCII range). -/
def lowerStr (s : String) : String := String.mk (s.data.map lowerChar)

/-- Go `strings.ToUpper` (ASCII range). -/
def upperStr (s : String) : String := String.mk (s.data.map upperChar)

/-- Whether `pat` occurs at the head of `l` (Go `strings.HasPrefix` on
character lists). -/
def leadsWith : List Char → List Char → Bool
  | [], _ => true
  | _ :: _, [] => false
  | p :: ps, c :: cs => p = c && leadsWith ps cs

/-- Whether `pat` occurs anywhere inside `l` (Go `strings.Contains` on
character lists). -/
def hasSubSeg (pat : List Char) : List Char → Bool
  | [] => leadsWith pat []
  | l@(_ :: cs) => leadsWith pat l || hasSubSeg pat cs

/-- Go `strings.Contains`. -/
def containsSubstr (s pat : String) : Bool := hasSubSeg pat.data s.data

/-- Go `strings.TrimSpace` (ASCII whitespace). -/
def goTrimSpace (l : List Char) : List Char :=
  ((l.dropWhile goIsSpace).reverse.dropWhile goIsSpace).reverse

/-- Split a character list at every occurrence of the separator character,
keeping empty segments; a list with `n` separators yields `n + 1` segments
(Go `strings.Split` with a one-character separator). -/
def splitCh (sep : Char) : List Char → List (List Char)
  | [] => [[]]
  | c :: rest =>
    if c = sep then [] :: splitCh sep rest
    else
      match splitCh sep rest with
      | [] => [[c]]
      | s :: ss => (c :: s) :: ss

/-- Go `path.Base` on a character list: empty input yields `"."`, trailing
slashes are removed, everything up to the final slash is dropped, and an
all-slash input yields `"/"`. -/
def goPathBaseL (s : List Char) : List Char :=
  if s = [] then ['.']
  else
    let t := (s.reverse.dropWhile (· = '/')).reverse
    if t = [] then ['/']
    else (t.reverse.takeWhile (· ≠ '/')).reverse

/-- Go `path.Base`. -/
def goPathBase (s : String) : String := String.mk (goPathBaseL s.data)

/-- Whether `pat` occurs at the end of `s` (Go `strings.HasSuffix` on
character lists). -/
def endsWithSeg (s pat : List Char) : Bool := leadsWith pat.reverse s.reverse

/-- Go `strings.TrimSuffix`. -/
def goTrimSuffix (s tail : String) : String :=
  if endsWithSeg s.data tail.data then
    String.mk (s.data.take (s.data.length - tail.data.length))
  else s

/-- Accumulator pass of `goFields`: `acc` holds the reversed characters of
the field being read. -/
def goFieldsAux : List Char → List Char → List (List Char)
  | [], [] => []
  | [], acc => [acc.reverse]
  | c :: rest, acc =>
    if goIsSpace c then
      match acc with
      | [] => goFieldsAux rest []
      | _ => acc.reverse :: goFieldsAux rest []
    else goFieldsAux rest (c :: acc)

/-- Go `strings.Fields`: split at runs of whitespace, dropping empty
fields. -/
def goFields (l : List Char) : List (List Char) := goFieldsAux l []

/-! ### The `max-lines` rule (`lint.CheckMaxLines`) -/

namespace Lint

/-- Embeds `lint.Issue`: rule identifier, 1-based line (0 for file-level
issues), message and severity. -/
structure Issue where
  rule : String
  line : Int
  message : String
  severity : String
deriving DecidableEq, Repr

/-- Embeds the line-count fields of `dockerfile.ParseResult` that
`CheckMaxLines` reads. -/
structure ParseResult where
  totalLines : Int
  blankLines : Int
  commentLines : Int
deriving DecidableEq, Repr

/-- Embeds `lint.CheckMaxLines`: a file-level `max-lines` issue when the
total line count strictly exceeds the configured maximum. -/
def CheckMaxLines (result : ParseResult) (maxLines : Int) : Option Issue :=
  if result.totalLines > maxLines then
    some { rule := "max-lines"
           line := 0
           message := "file has " ++ toString result.totalLines ++
             " lines, maximum allowed is " ++ toString maxLines
           severity := "error" }
  else none

end Lint

/-! ### DL3023 / DL3024: self-referencing COPY --from and duplicate stage names -/

namespace Hadolint

/-- Go `fmt.Sprintf("%q", s)` on the ASCII range: surrounding double quotes,
with quote and backslash escaped and control characters rendered as their Go
escape sequences (`\n`, `\t`, `\r`); other printable ASCII is verbatim. -/
def goQuoteChar (c : Char) : List Char :=
  if c = '"' then [Tally.bsCh, '"']
  else if c = Tally.bsCh then [Tally.bsCh, Tally.bsCh]
  else if c = Tally.nlCh then [Tally.bsCh, 'n']
  else if c = Char.ofNat 9 then [Tally.bsCh, 't']
  else if c = Tally.crCh then [Tally.bsCh, 'r']
  else [c]

/-- Go `fmt.Sprintf("%q", s)` (ASCII range). -/
def goQuote (s : String) : String :=
  String.mk ('"' :: s.data.flatMap goQuoteChar ++ ['"'])

/-- Embeds `hadolint.DL3024Message`:
`fmt.Sprintf("Stage name %q is already used on stage %d", name, idx)`. -/
def DL3024Message (stageName : String) (existingStageIndex : Nat) : String :=
  "Stage name " ++ goQuote stageName ++ " is already used on stage " ++
    toString existingStageIndex

/-- Embeds `hadolint.CheckDuplicateStageName`: Go map lookup, returning the
already-registered index and `true` on a hit, `(0, false)` otherwise.  The Go
`map[string]int` is embedded as an association list with first-binding
lookup. -/
def CheckDuplicateStageName (stageName : String)
    (stagesByName : List (String × Nat)) : Nat × Bool :=
  match stagesByName.lookup stageName with
  | some idx => (idx, true)
  | none => (0, false)

/-- Embeds `hadolint.DL3023Message`:
`fmt.Sprintf("COPY --from=%s references its own stage %q", from, name)`. -/
def DL3023Message (stageName copyFrom : String) : String :=
  "COPY --from=" ++ copyFrom ++ " references its own stage " ++
    goQuote stageName

/-- Embeds `hadolint.IsSelfReferencingCopy`: true iff the stage-name table
maps the `--from` value to exactly the current stage's index. -/
def IsSelfReferencingCopy (currentStageIndex : Nat) (copyFrom : String)
    (stageNames : List (String × Nat)) : Bool :=
  match stageNames.lookup copyFrom with
  | some refIdx => refIdx = currentStageIndex
  | none => false

/-- One stage as seen by the semantic builder: its (raw) alias, the 1-based
line of its FROM instruction, and the `--from` values of its COPY
instructions with their lines. -/
structure SrcStage where
  aliasName : Option String
  line : Nat
  copyFroms : List (String × Nat)
deriving DecidableEq, Repr

/-- A construction issue emitted by the semantic builder. -/
structure CIssue where
  code : String
  line : Nat
  message : String
deriving DecidableEq, Repr

/-- Modelled from the spec: the semantic builder walks stages maintaining a
lowercased alias table → stage index; on a duplicate alias it emits a
`hadolint/DL3024` construction issue at the duplicating FROM and keeps the
first binding, and a COPY `--from` that (lowercased) names an index equal to
the current stage emits `hadolint/DL3023`.  The builder's own source file is
not under src/; it is modelled here around the checks
`CheckDuplicateStageName` and `IsSelfReferencingCopy`, which are. -/
def buildStages (idx : Nat) (table : List (String × Nat)) :
    List SrcStage → List CIssue
  | [] => []
  | st :: rest =>
    let step : List (String × Nat) × List CIssue :=
      match st.aliasName with
      | some a =>
        let la := Tally.lowerStr a
        match CheckDuplicateStageName la table with
        | (j, true) => (table, [⟨"hadolint/DL3024", st.line, DL3024Message la j⟩])
        | (_, false) => (table ++ [(la, idx)], [])
      | none => (table, [])
    let copyIssues := st.copyFroms.filterMap fun cf =>
      if IsSelfReferencingCopy idx (Tally.lowerStr cf.1) step.1 then
        some ⟨"hadolint/DL3023", cf.2,
          DL3023Message (Tally.lowerStr cf.1) (Tally.lowerStr cf.1)⟩
      else none
    step.2 ++ copyIssues ++ buildStages (idx + 1) step.1 rest

/-- Modelled from the spec: construction issues of a whole Dockerfile, walked
from the first stage with an empty alias table. -/
def buildConstructionIssues (stages : List SrcStage) : List CIssue :=
  buildStages 0 [] stages

end Hadolint

/-! ### DL4006: set `-o pipefail` before RUN with a pipe (`dl4006.go`) -/

namespace DL4006

/-- Modelled from the spec: the shell variants of `ShellSetting.variant`. -/
inductive Variant
  | posix | bash | zsh | ash | powershell | cmdShell | other
deriving DecidableEq, Repr

/-- Modelled from the spec: only PowerShell and cmd variants are
non-POSIX. -/
def Variant.isNonPOSIX : Variant → Bool
  | .powershell | .cmdShell => true
  | _ => false

/-- Modelled from the spec: `shell.VariantFromShell` infers the variant from
the basename of argv[0] (`bash`, `zsh`, `ash`, `pwsh`/`powershell`, `cmd`,
else POSIX). -/
def VariantFromShell (sh : String) : Variant :=
  match Tally.lowerStr (Tally.goPathBase sh) with
  | "bash" => .bash
  | "zsh" => .zsh
  | "ash" => .ash
  | "pwsh" => .powershell
  | "powershell" => .powershell
  | "cmd" => .cmdShell
  | _ => .posix

/-- Embeds `pipefailValidShells`: shells that support `-o pipefail`
(`bash`, `zsh`, `ash`); plain `/bin/sh` is excluded. -/
def pipefailValidShells (s : String) : Bool :=
  s = "bash" || s = "zsh" || s = "ash"

/-- The shell-name normalization shared by `hasPipefailOption` and
`determineFixShell`: lowercased `path.Base` with a `.exe` suffix stripped. -/
def shellBaseName (arg0 : String) : String :=
  Tally.goTrimSuffix (Tally.lowerStr (Tally.goPathBase arg0)) ".exe"

/-- The inner loop of `hasPipefailOption` over the argument list: fires when
a standalone `-o`, or a combined short flag (`-eo`, `-xo`, …) whose
characters after the dash contain `o`, is immediately followed by the
argument `pipefail`. -/
def pipefailArgScan : List String → Bool
  | a :: b :: rest =>
    ((a = "-o" && b = "pipefail") ||
      (a.data.length > 1 && Tally.leadsWith ['-'] a.data &&
        !Tally.leadsWith ['-', '-'] a.data &&
        (a.data.drop 1).contains 'o' && b = "pipefail")) ||
      pipefailArgScan (b :: rest)
  | _ => false

/-- Embeds `hasPipefailOption`: whether a SHELL instruction array sets
`-o pipefail` with a shell that supports it. -/
def hasPipefailOption : List String → Bool
  | [] => false
  | [_] => false
  | arg0 :: args =>
    if pipefailValidShells (shellBaseName arg0) then pipefailArgScan args
    else false

/-- Embeds `isNonPOSIXShellCmd`: whether a SHELL instruction sets a
non-POSIX shell. -/
def isNonPOSIXShellCmd : List String → Bool
  | [] => false
  | s0 :: _ => (VariantFromShell s0).isNonPOSIX

/-- Embeds `dl4006StageState`: the per-stage pipefail tracking state. -/
structure StageState where
  pipefailSet : Bool
  isNonPOSIX : Bool
deriving DecidableEq, Repr

/-- Embeds `(*dl4006StageState).updateFromShell`: the state after a SHELL
instruction (it depends only on the instruction, not on the prior state). -/
def updateFromShell (shellCmd : List String) : StageState :=
  if isNonPOSIXShellCmd shellCmd then ⟨false, true⟩
  else ⟨hasPipefailOption shellCmd, false⟩

/-- Embeds `instructions.RunCommand` as DL4006 reads it: the shell/exec-form
flag, the joined command string (`dockerfile.RunCommandString`), and the
start of its first source range (1-based line, 0-based column);
`hasLoc = false` embeds an empty `Location()` slice. -/
structure RunCmd where
  prependShell : Bool
  cmdStr : String
  line : Nat
  col : Nat
  hasLoc : Bool
deriving DecidableEq, Repr

/-- The commands of a stage as DL4006 dispatches on them: SHELL instructions,
RUN instructions, and everything else. -/
inductive Command
  | shellIns (cmd : List String)
  | runIns (r : RunCmd)
  | otherIns
deriving DecidableEq, Repr

/-- The per-stage slice of `semantic.Model` that DL4006 consults: whether the
stage's shell setting came from a comment directive, its variant, and its
shell argv (`ShellSetting.Shell`). -/
structure StageSem where
  sourceDirective : Bool
  variant : Variant
  shellArgv : List String
deriving DecidableEq, Repr

/-- One stage of the lint input: its semantic info (`none` embeds a nil
semantic model or missing stage info) and its command list. -/
structure Stage where
  sem : Option StageSem
  commands : List Command
deriving Repr

/-- Embeds the fields of `rules.LintInput` that DL4006 reads: the file name,
the stages, whether the prefer-run-heredoc rule is enabled
(`input.IsRuleEnabled(rules.HeredocRuleCode)`), and
`input.GetHeredocMinCommands()`. -/
structure LintInput where
  file : String
  stages : List Stage
  heredocEnabled : Bool
  heredocMinCommands : Nat
deriving Repr

/-- The external shell analyzer (package `shell`), taken as an oracle:
`HasPipes` and `IsHeredocCandidate`. -/
structure ShellOracle where
  hasPipes : String → Variant → Bool
  isHeredocCandidate : String → Variant → Nat → Bool

/-- Embeds `initStageState`: fresh per-stage state; the non-POSIX flag is
pre-set only when the semantic model says the stage's shell came from a
directive and is non-POSIX. -/
def initStageState (sem : Option StageSem) : StageState :=
  match sem with
  | some info => ⟨false, info.sourceDirective && info.variant.isNonPOSIX⟩
  | none => ⟨false, false⟩

/-- Embeds `shellVariantForStage`: the semantic model's per-stage variant,
defaulting to POSIX. -/
def stageVariant (sem : Option StageSem) : Variant :=
  match sem with
  | some info => info.variant
  | none => .posix

/-- Embeds `(*DL4006Rule).determineFixShell`: `/bin/bash` unless the stage's
recorded shell has a pipefail-capable basename, in which case that shell's
argv[0] is kept. -/
def determineFixShell (sem : Option StageSem) : String :=
  match sem with
  | some info =>
    match info.shellArgv with
    | [] => "/bin/bash"
    | s0 :: _ => if pipefailValidShells (shellBaseName s0) then s0 else "/bin/bash"
  | none => "/bin/bash"

/-- Embeds `rules.TextEdit` with the range of `rules.NewRangeLocation`. -/
structure TextEdit where
  startLine : Nat
  startCol : Nat
  endLine : Nat
  endCol : Nat
  newText : String
deriving DecidableEq, Repr

/-- Fix safety tiers (`rules.FixSafe` / `rules.FixSuggestion`; the third tier
of the source is not used by the embedded rules). -/
inductive FixSafety
  | safe | suggestion
deriving DecidableEq, Repr

/-- Embeds `rules.SuggestedFix`. -/
structure SuggestedFix where
  description : String
  safety : FixSafety
  edits : List TextEdit
  isPreferred : Bool := false
deriving DecidableEq, Repr

/-- Embeds `rules.Violation` as DL4006 constructs it. -/
structure Violation where
  file : String
  line : Nat
  col : Nat
  code : String
  message : String
  detail : String := ""
  fix : Option SuggestedFix := none
deriving DecidableEq, Repr

/-- Embeds `(*DL4006Rule).generateFix`: no fix for exec-form RUNs; no fix
when prefer-run-heredoc is enabled and the command is a heredoc candidate;
no fix without a location; otherwise a single insertion of
`SHELL ["<shell>", "-o", "pipefail", "-c"]` plus newline at the RUN's start
position, with `FixSuggestion` safety. -/
def generateFix (oracle : ShellOracle) (input : LintInput) (sem : Option StageSem)
    (run : RunCmd) : Option SuggestedFix :=
  if !run.prependShell then none
  else if input.heredocEnabled &&
      oracle.isHeredocCandidate run.cmdStr (stageVariant sem) input.heredocMinCommands then
    none
  else if !run.hasLoc then none
  else
    some { description := "Add SHELL with -o pipefail before RUN"
           safety := .suggestion
           edits := [{ startLine := run.line, startCol := run.col
                       endLine := run.line, endCol := run.col
                       newText := "SHELL [\"" ++ determineFixShell sem ++
                         "\", \"-o\", \"pipefail\", \"-c\"]\n" }] }

/-- The violation `checkRun` constructs when it fires. -/
def mkDL4006Violation (oracle : ShellOracle) (input : LintInput)
    (sem : Option StageSem) (run : RunCmd) : Violation :=
  { file := input.file, line := run.line, col := run.col
    code := "hadolint/DL4006"
    message := "set the SHELL option -o pipefail before RUN with a pipe in it"
    detail := "If you are using /bin/sh in an alpine image or if your shell is symlinked to busybox " ++
      "then consider explicitly setting your SHELL to /bin/ash, or disable this check. " ++
      "Use SHELL [\"/bin/bash\", \"-o\", \"pipefail\", \"-c\"] before the RUN instruction."
    fix := generateFix oracle input sem run }

/-- Embeds `(*DL4006Rule).checkRun`: no violation for non-POSIX state,
exec-form RUNs, already-set pipefail, or commands without pipes. -/
def checkRun (oracle : ShellOracle) (input : LintInput) (sem : Option StageSem)
    (state : StageState) (run : RunCmd) : Option Violation :=
  if state.isNonPOSIX || !run.prependShell || state.pipefailSet then none
  else if !oracle.hasPipes run.cmdStr (stageVariant sem) then none
  else some (mkDL4006Violation oracle input sem run)

/-- The command loop of `(*DL4006Rule).Check` within one stage: SHELL
instructions update the state, RUN instructions are checked against it. -/
def checkCmds (oracle : ShellOracle) (input : LintInput) (sem : Option StageSem) :
    StageState → List Command → List Violation
  | _, [] => []
  | _, Command.shellIns s :: rest =>
    checkCmds oracle input sem (updateFromShell s) rest
  | st, Command.runIns r :: rest =>
    (checkRun oracle input sem st r).toList ++ checkCmds oracle input sem st rest
  | st, Command.otherIns :: rest => checkCmds oracle input sem st rest

/-- Embeds `(*DL4006Rule).Check`: per-stage fresh state, folded over the
stage's commands. -/
def Check (oracle : ShellOracle) (input : LintInput) : List Violation :=
  input.stages.flatMap fun stage =>
    checkCmds oracle input stage.sem (initStageState stage.sem) stage.commands

/-- The most recent SHELL instruction of a command-list prefix, if any. -/
def lastShellOf (cmds : List Command) : Option (List String) :=
  (cmds.filterMap fun c =>
    match c with
    | Command.shellIns s => some s
    | _ => none).getLast?

/-- The state a RUN is checked against, expressed through the most recent
SHELL instruction of the commands before it (the SHELL update depends only
on the instruction itself, so earlier history is irrelevant). -/
def stateAt (st : StageState) (prior : List Command) : StageState :=
  match lastShellOf prior with
  | some s => updateFromShell s
  | none => st

/-- Declarative per-RUN non-POSIX flag: determined solely by the most recent
SHELL instruction before the RUN, or by the directive-derived initial flag
when there is none. -/
def declNonPOSIX (sem : Option StageSem) (prior : List Command) : Bool :=
  match lastShellOf prior with
  | some s => isNonPOSIXShellCmd s
  | none => (initStageState sem).isNonPOSIX

/-- Declarative per-RUN pipefail bit: set iff the most recent SHELL
instruction before the RUN uses a POSIX shell and carries `-o pipefail`;
unset when there is no SHELL before the RUN. -/
def declPipefail (prior : List Command) : Bool :=
  match lastShellOf prior with
  | some s => !isNonPOSIXShellCmd s && hasPipefailOption s
  | none => false

/-- Declarative restatement of the DL4006 stage walk: a RUN at position `j`
is reported iff it is shell-form, its command has a pipe, and the non-POSIX
flag and pipefail bit determined by the commands strictly before it are both
unset. -/
def declStage (oracle : ShellOracle) (input : LintInput) (sem : Option StageSem)
    (cmds : List Command) : List Violation :=
  (List.range cmds.length).flatMap fun j =>
    match cmds[j]? with
    | some (Command.runIns r) =>
      if r.prependShell && !declNonPOSIX sem (cmds.take j) &&
          !declPipefail (cmds.take j) && oracle.hasPipes r.cmdStr (stageVariant sem) then
        [mkDL4006Violation oracle input sem r]
      else []
    | _ => []

/-- Declarative restatement of `Check`, stage by stage. -/
def declCheck (oracle : ShellOracle) (input : LintInput) : List Violation :=
  input.stages.flatMap fun stage =>
    declStage oracle input stage.sem stage.commands

/-- Generalization of `declStage` to an arbitrary state for the no-SHELL-yet
case; the proof of `Check = declCheck` goes through it. -/
def declStageFrom (oracle : ShellOracle) (input : LintInput) (sem : Option StageSem)
    (st : StageState) (cmds : List Command) : List Violation :=
  (List.range cmds.length).flatMap fun j =>
    match cmds[j]? with
    | some (Command.runIns r) =>
      if r.prependShell && !(stateAt st (cmds.take j)).isNonPOSIX &&
          !(stateAt st (cmds.take j)).pipefailSet &&
          oracle.hasPipes r.cmdStr (stageVariant sem) then
        [mkDL4006Violation oracle input sem r]
      else []
    | _ => []

/-- The condition of claim C2 read literally: some SHELL instruction earlier
in the stage set `-o pipefail` with a pipefail-capable shell. -/
def someEarlierShellSetPipefail (prior : List Command) : Bool :=
  prior.any fun c =>
    match c with
    | Command.shellIns s => !isNonPOSIXShellCmd s && hasPipefailOption s
    | _ => false

/-- Modelled from the spec: `shell.HasPipes(script, variant)` is true iff a
`|` occurs outside the `|&` contexts recognized by the variant (bash and zsh
recognize `|&`; the others do not). -/
def variantHasPipeAmp : Variant → Bool
  | .bash | .zsh => true
  | _ => false

/-- Modelled from the spec: character scan behind `HasPipes`. -/
def hasPipeChars (v : Variant) : List Char → Bool
  | [] => false
  | c :: rest =>
    if c = '|' then
      match rest with
      | d :: rest' =>
        if d = '&' && variantHasPipeAmp v then hasPipeChars v rest'
        else true
      | [] => true
    else hasPipeChars v rest

/-- Modelled from the spec: `shell.HasPipes`. -/
def hasPipesSpec (script : String) (v : Variant) : Bool :=
  hasPipeChars v script.data

/-- The oracle used for the concrete scenarios: the spec-modelled `HasPipes`
and a heredoc test that never fires (the heredoc rule is disabled in those
scenarios anyway). -/
def specOracle : ShellOracle :=
  { hasPipes := hasPipesSpec
    isHeredocCandidate := fun _ _ _ => false }

/-- The lint input of the `FROM alpine` + piped RUN scenario of claim C1:
one stage whose semantic shell setting is the default `["/bin/sh", "-c"]`
(POSIX, not from a directive), and one shell-form RUN at line 2, column 0. -/
def c1Run : RunCmd :=
  { prependShell := true
    cmdStr := "cat /etc/os-release | grep VERSION"
    line := 2, col := 0, hasLoc := true }

/-- The C1 scenario input. -/
def c1Input : LintInput :=
  { file := "Dockerfile"
    stages := [{ sem := some { sourceDirective := false
                               variant := .posix
                               shellArgv := ["/bin/sh", "-c"] }
                 commands := [Command.runIns c1Run] }]
    heredocEnabled := false
    heredocMinCommands := 0 }

/-- The piped shell-form RUN of the C2 counterexample stage. -/
def c2Run : RunCmd :=
  { prependShell := true, cmdStr := "cat a | grep b"
    line := 4, col := 0, hasLoc := true }

/-- The C2 counterexample stage: a SHELL that sets pipefail, then a SHELL
that drops it, then a piped shell-form RUN. -/
def c2Cmds : List Command :=
  [Command.shellIns ["/bin/bash", "-o", "pipefail", "-c"],
   Command.shellIns ["/bin/bash", "-c"],
   Command.runIns c2Run]

/-- The C2 counterexample input. -/
def c2Input : LintInput :=
  { file := "Dockerfile"
    stages := [{ sem := none, commands := c2Cmds }]
    heredocEnabled := false
    heredocMinCommands := 0 }

end DL4006

/-! ### Line counting of the parser adapter (`dockerfile.countLines`) -/

namespace Dockerfile

/-- Models `dropCR` of Go's `bufio.ScanLines`: strip one trailing carriage
return from a line. -/
def dropCR (l : List Char) : List Char :=
  if l.getLast? = some Tally.crCh then l.dropLast else l

/-- Index of the first newline in a list, if any. -/
def idxOfNl : List Char → Option Nat
  | [] => none
  | c :: rest =>
    if c = Tally.nlCh then some 0 else (idxOfNl rest).map (· + 1)

/-- Go `bufio.MaxScanTokenSize`, the scanner's default maximum token size
(64 KiB): a token must be found within this many buffered bytes. -/
def maxScanTokenSize : Nat := 65536

/-- Models Go's `bufio.Scanner.Scan` loop with the default `ScanLines`
split function and the default `MaxScanTokenSize`, as `countLines` iterates
it.  From the current position: if a newline occurs within the first 64 KiB,
the bytes before it (with one trailing `\r` stripped) are the next token and
scanning continues after the newline; if no newline occurs and fewer than
64 KiB remain, the remainder is the final token (EOF); otherwise the
scanner's buffer fills to `MaxScanTokenSize` without a token, `Scan` stops
with `ErrTooLong`, and no further tokens are produced (`countLines` ignores
`scanner.Err()`).  The fuel starts at the input length, which each step
strictly consumes, so it never runs out before the input does. -/
def scanTokensFuel : Nat → List Char → List (List Char)
  | 0, _ => []
  | _ + 1, [] => []
  | fuel + 1, l@(_ :: _) =>
    match idxOfNl l with
    | some i =>
      if i < maxScanTokenSize then
        dropCR (l.take i) :: scanTokensFuel fuel (l.drop (i + 1))
      else []
    | none => if l.length < maxScanTokenSize then [dropCR l] else []

/-- The token sequence `countLines` folds over: the scanner run on the whole
buffer. -/
def scanLines (content : List Char) : List (List Char) :=
  scanTokensFuel content.length content

/-- The scanner's output when no line reaches the token-size limit: the
newline-separated lines without their terminators (a final line without a
trailing newline is still a token, a trailing newline terminates the last
line rather than adding an empty one), each with one trailing `\r`
stripped; empty input yields no tokens.  Used to characterize `scanLines`
under the `linesWithinLimit` hypothesis. -/
def allLines (content : List Char) : List (List Char) :=
  if content = [] then []
  else if content.getLast? = some Tally.nlCh then
    ((Tally.splitCh Tally.nlCh content).dropLast).map dropCR
  else (Tally.splitCh Tally.nlCh content).map dropCR

/-- Every newline-separated line of the buffer is below the scanner's
64 KiB token-size limit, so scanning completes without `ErrTooLong`. -/
def linesWithinLimit (content : List Char) : Prop :=
  ∀ seg ∈ Tally.splitCh Tally.nlCh content, seg.length < maxScanTokenSize

/-- Embeds `dockerfile.lineStats`. -/
structure LineStats where
  total : Nat
  blank : Nat
  comments : Nat
deriving DecidableEq, Repr

/-- The loop body of `countLines`: count every line, blank lines
(whitespace-only after `TrimSpace`), and comment lines (trimmed line starts
with `#`). -/
def countStep (st : LineStats) (line : List Char) : LineStats :=
  let st1 : LineStats := { st with total := st.total + 1 }
  let t := Tally.goTrimSpace line
  if t = [] then { st1 with blank := st1.blank + 1 }
  else if Tally.leadsWith ['#'] t then { st1 with comments := st1.comments + 1 }
  else st1

/-- The accumulation of `countLines` over the scanned lines. -/
def lineStatsOf (lines : List (List Char)) : LineStats :=
  lines.foldl countStep ⟨0, 0, 0⟩

/-- Embeds `dockerfile.countLines`: total/blank/comment counts of a byte
buffer. -/
def countLines (content : List Char) : LineStats :=
  lineStatsOf (scanLines content)

end Dockerfile

/-! ### The StageNameCasing fix enricher (`fixes.enrichStageNameCasingFix`) -/

namespace Fixes

/-- A single-quote string, used to build messages without apostrophe
literals. -/
def sqStr : String := String.mk [Tally.sqCh]

/-- First index at which `pat` occurs in a list (Go `strings.Index`),
`none` if it does not occur. -/
def findSegIdx (pat : List Char) : List Char → Option Nat
  | [] => if Tally.leadsWith pat [] then some 0 else none
  | l@(_ :: cs) =>
    if Tally.leadsWith pat l then some 0
    else (findSegIdx pat cs).map (· + 1)

/-- First non-whitespace index at or after `i`. -/
def skipSpacesFrom (l : List Char) (i : Nat) : Nat :=
  i + ((l.drop i).takeWhile Tally.goIsSpace).length

/-- End (exclusive) of the whitespace-free token starting at `i`. -/
def tokenEndFrom (l : List Char) (i : Nat) : Nat :=
  i + ((l.drop i).takeWhile (fun c => !Tally.goIsSpace c)).length

/-- The slice `l[a:b]`. -/
def sliceSeg (l : List Char) (a b : Nat) : List Char := (l.drop a).take (b - a)

/-- Go `strings.EqualFold` (ASCII range). -/
def equalFold (a b : String) : Bool := Tally.lowerStr a = Tally.lowerStr b

/-- Modelled from the spec: `getLine` of the BuildKit fix position helpers
(file `fixes/position.go`, not under src/) — the 0-indexed line of the
source, split at newlines. -/
def getLine (source : String) (i : Nat) : Option String :=
  ((Tally.splitCh Tally.nlCh source.data).map String.mk)[i]?

/-- Modelled from the spec: `findASKeyword` of the position helpers — finds
`" AS "` case-insensitively, returning the AS keyword span and the span of
the stage-name token after it; `none` embeds the `-1` results. -/
def findASKeyword (line : String) : Option (Nat × Nat × Nat × Nat) :=
  match findSegIdx (" AS ".data) (Tally.upperStr line).data with
  | none => none
  | some idx =>
    let asStart := idx + 1
    let asEnd := asStart + 2
    let nameStart := skipSpacesFrom line.data asEnd
    let nameEnd := tokenEndFrom line.data nameStart
    some (asStart, asEnd, nameStart, nameEnd)

/-- Accumulator pass of `tokenSpans`: `start?` holds the start index of the
token currently being read. -/
def tokenSpansAux : List Char → Nat → Option Nat → List (Nat × Nat)
  | [], _, none => []
  | [], i, some s => [(s, i)]
  | c :: rest, i, none =>
    if Tally.goIsSpace c then tokenSpansAux rest (i + 1) none
    else tokenSpansAux rest (i + 1) (some i)
  | c :: rest, i, some s =>
    if Tally.goIsSpace c then (s, i) :: tokenSpansAux rest (i + 1) none
    else tokenSpansAux rest (i + 1) (some s)

/-- The whitespace-separated token spans of a line, with their positions. -/
def tokenSpans (l : List Char) : List (Nat × Nat) := tokenSpansAux l 0 none

/-- The first span among `spans` whose token does not start with `--`. -/
def pickNonFlagSpan (l : List Char) : List (Nat × Nat) → Option (Nat × Nat)
  | [] => none
  | (a, b) :: rest =>
    if Tally.leadsWith ['-', '-'] (l.drop a) then pickNonFlagSpan l rest
    else some (a, b)

/-- Modelled from the spec: `findFROMBaseName` of the position helpers — on
a line whose first token is `FROM` (case-insensitive), the span of the first
following token that is not a `--` flag (skipping `--platform=…`). -/
def findFROMBaseName (line : String) : Option (Nat × Nat) :=
  match tokenSpans line.data with
  | [] => none
  | (a, b) :: restSpans =>
    if equalFold (String.mk (sliceSeg line.data a b)) "FROM" then
      pickNonFlagSpan line.data restSpans
    else none

/-- Modelled from the spec: `findCopyFromValue` of the position helpers —
the span of the value after `--from=` (case-insensitive). -/
def findCopyFromValue (line : String) : Option (Nat × Nat) :=
  match findSegIdx ("--FROM=".data) (Tally.upperStr line).data with
  | none => none
  | some idx => some (idx + 7, tokenEndFrom line.data (idx + 7))

/-- Embeds `semantic.BaseImageRef` as the enricher reads it. -/
structure BaseImageRef where
  raw : String
  isStageRef : Bool
  stageIndex : Int
  locLine : Option Nat
deriving DecidableEq, Repr

/-- Embeds `semantic.CopyFromRef` as the enricher reads it. -/
structure CopyFromRef where
  fromVal : String
  isStageRef : Bool
  stageIndex : Int
  locLine : Option Nat
deriving DecidableEq, Repr

/-- Embeds `semantic.StageInfo` as the enricher reads it. -/
structure StageInfo where
  aliasName : Option String
  defLocLine : Option Nat
  baseImage : Option BaseImageRef
  copyFromRefs : List CopyFromRef
deriving DecidableEq, Repr

/-- Embeds `semantic.Model` as the enricher reads it. -/
structure Model where
  stages : List StageInfo
deriving DecidableEq, Repr

/-- Modelled from the spec: `Model.StageIndexByName` — lookup in the
lowercased global stage-name table. -/
def Model.stageIndexByName (m : Model) (name : String) : Option Nat :=
  (m.stages.enum.find? fun p =>
    p.2.aliasName.map Tally.lowerStr = some (Tally.lowerStr name)).map (·.1)

/-- Embeds the `stageCasingRegex` submatch extraction: the text between the
quotes of `Stage name '…' should be lowercase`, at the first position where
the whole pattern matches. -/
def matchCasingAt (l : List Char) : Option String :=
  let head := "Stage name ".data ++ [Tally.sqCh]
  let tail := [Tally.sqCh] ++ " should be lowercase".data
  if Tally.leadsWith head l then
    let rest := l.drop head.length
    let nm := rest.takeWhile (fun c => c ≠ Tally.sqCh)
    if nm ≠ [] && Tally.leadsWith tail (rest.drop nm.length) then
      some (String.mk nm)
    else none
  else none

/-- Leftmost match of the stage-casing pattern in a message. -/
def extractStageName : List Char → Option String
  | [] => none
  | l@(_ :: cs) =>
    match matchCasingAt l with
    | some nm => some nm
    | none => extractStageName cs

/-- Embeds `createStageDefEdit`: replace the alias token after `AS` on the
stage-definition line (1-based line converted to a 0-based edit line, as
`createEditLocation` does). -/
def createStageDefEdit (stage? : Option StageInfo) (stageName lowerName : String)
    (source : String) : Option Tally.DL4006.TextEdit :=
  match stage? with
  | none => none
  | some st =>
    match st.defLocLine with
    | none => none
    | some ln =>
      match getLine source (ln - 1) with
      | none => none
      | some line =>
        match findASKeyword line with
        | none => none
        | some (_, _, nameStart, nameEnd) =>
          if nameEnd ≤ nameStart then none
          else if equalFold (String.mk (sliceSeg line.data nameStart nameEnd))
              stageName then
            some { startLine := ln - 1, startCol := nameStart
                   endLine := ln - 1, endCol := nameEnd, newText := lowerName }
          else none

/-- Embeds `createFromRefEdit`: replace a `FROM <stagename>` reference to
the renamed stage. -/
def createFromRefEdit (info : StageInfo) (stageIdx : Nat)
    (stageName lowerName : String) (source : String) :
    Option Tally.DL4006.TextEdit :=
  match info.baseImage with
  | none => none
  | some bi =>
    if !bi.isStageRef || bi.stageIndex ≠ (stageIdx : Int) then none
    else
      match bi.locLine with
      | none => none
      | some ln =>
        match getLine source (ln - 1) with
        | none => none
        | some line =>
          match findFROMBaseName line with
          | none => none
          | some (a, b) =>
            if b ≤ a then none
            else if equalFold (String.mk (sliceSeg line.data a b)) stageName then
              some { startLine := ln - 1, startCol := a
                     endLine := ln - 1, endCol := b, newText := lowerName }
            else none

/-- Embeds `createCopyFromEdits`: replace every `COPY --from=<stagename>`
reference to the renamed stage. -/
def createCopyFromEdits (info : StageInfo) (stageIdx : Nat)
    (stageName lowerName : String) (source : String) :
    List Tally.DL4006.TextEdit :=
  info.copyFromRefs.filterMap fun ref =>
    if !ref.isStageRef || ref.stageIndex ≠ (stageIdx : Int) then none
    else
      match ref.locLine with
      | none => none
      | some ln =>
        match getLine source (ln - 1) with
        | none => none
        | some line =>
          match findCopyFromValue line with
          | none => none
          | some (a, b) =>
            if b ≤ a then none
            else if equalFold (String.mk (sliceSeg line.data a b)) stageName then
              some { startLine := ln - 1, startCol := a
                     endLine := ln - 1, endCol := b, newText := lowerName }
            else none

/-- Embeds `collectStageRefEdits`: the reference edits over all stages. -/
def collectStageRefEdits (m : Model) (stageIdx : Nat)
    (stageName lowerName : String) (source : String) :
    List Tally.DL4006.TextEdit :=
  m.stages.flatMap fun info =>
    (createFromRefEdit info stageIdx stageName lowerName source).toList ++
      createCopyFromEdits info stageIdx stageName lowerName source

/-- Embeds `enrichStageNameCasingFix`: extract the stage name from the
BuildKit message, find the stage, collect the definition edit plus all
reference edits, and attach a preferred `FixSafe` multi-edit fix. -/
def enrichStageNameCasingFix (v : Tally.DL4006.Violation) (sem : Option Model)
    (source : String) : Tally.DL4006.Violation :=
  match extractStageName v.message.data, sem with
  | some stageName, some m =>
    let lowerName := Tally.lowerStr stageName
    match m.stageIndexByName stageName with
    | none => v
    | some stageIdx =>
      let edits :=
        (createStageDefEdit m.stages[stageIdx]? stageName lowerName source).toList ++
          collectStageRefEdits m stageIdx stageName lowerName source
      if edits.isEmpty then v
      else
        let fx : Tally.DL4006.SuggestedFix :=
          { description := "Rename stage " ++ sqStr ++ stageName ++ sqStr ++
              " to " ++ sqStr ++ lowerName ++ sqStr
            safety := .safe
            edits := edits
            isPreferred := true }
        { v with fix := some fx }
  | _, _ => v

/-- Modelled from the spec: the fix engine's application of single-line
edits, line by line (0-based edit lines; each edit replaces the column range
`[startCol, endCol)` of its line). -/
def applyEdit (lines : List (List Char)) (e : Tally.DL4006.TextEdit) :
    List (List Char) :=
  lines.enum.map fun p =>
    if p.1 = e.startLine then
      p.2.take e.startCol ++ e.newText.data ++ p.2.drop e.endCol
    else p.2

/-- Modelled from the spec: applying a list of edits to a source buffer. -/
def applyEdits (source : String) (edits : List Tally.DL4006.TextEdit) : String :=
  String.mk (List.intercalate [Tally.nlCh]
    (edits.foldl applyEdit (Tally.splitCh Tally.nlCh source.data)))

/-- The C3 scenario source. -/
def c3Source : String := "FROM alpine AS Builder\nFROM Builder"

/-- The C3 scenario's semantic model: stage 0 with alias `Builder`, stage 1
whose base image is a reference to stage 0 at line 2. -/
def c3Model : Model :=
  { stages :=
      [{ aliasName := some "Builder", defLocLine := some 1
         baseImage := some { raw := "alpine", isStageRef := false
                             stageIndex := -1, locLine := some 1 }
         copyFromRefs := [] },
       { aliasName := none, defLocLine := some 2
         baseImage := some { raw := "Builder", isStageRef := true
                             stageIndex := 0, locLine := some 2 }
         copyFromRefs := [] }] }

/-- The C3 scenario's StageNameCasing violation as BuildKit reports it. -/
def c3Violation : Tally.DL4006.Violation :=
  { file := "Dockerfile", line := 1, col := 0
    code := "buildkit/StageNameCasing"
    message := "Stage name " ++ sqStr ++ "Builder" ++ sqStr ++
      " should be lowercase" }

end Fixes

/-! ### Command-name extraction fallback (`shell.CommandNames`) -/

namespace Shell

/-- Fuel-driven core of `replaceAll`; the fuel starts at the input length
and each step consumes one unit and at least one character, so it never
runs out before the input does. -/
def replaceAllFuel (pat rep : List Char) : Nat → List Char → List Char
  | 0, s => s
  | _ + 1, [] => []
  | fuel + 1, s@(c :: rest) =>
    if pat ≠ [] && Tally.leadsWith pat s then
      rep ++ replaceAllFuel pat rep fuel (s.drop pat.length)
    else c :: replaceAllFuel pat rep fuel rest

/-- Go `strings.ReplaceAll` with a non-empty literal pattern: greedy,
left-to-right, non-overlapping replacement. -/
def replaceAll (pat rep s : List Char) : List Char :=
  replaceAllFuel pat rep s.length s

/-- The `\x00` marker byte of `simpleCommandNames`. -/
def markerCh : Char := Char.ofNat 0

/-- The operator separators of `simpleCommandNames`, replaced in this
order: `&&`, `||`, `;`, `|`, backtick, `$(`. -/
def operatorSeps : List (List Char) :=
  ["&&".data, "||".data, ";".data, "|".data, [Tally.btCh], "$(".data]

/-- The replacement cascade of `simpleCommandNames`: the operators and `(`
become the marker, `)` and backslash-newline become spaces, and the
remaining newlines become markers. -/
def normalizeScript (script : List Char) : List Char :=
  let s1 := operatorSeps.foldl (fun s sep => replaceAll sep [markerCh] s) script
  let s2 := replaceAll ['('] [markerCh] s1
  let s3 := replaceAll [')'] [' '] s2
  let s4 := replaceAll [Tally.bsCh, Tally.nlCh] [' '] s3
  replaceAll [Tally.nlCh] [markerCh] s4

/-- The inner token loop of `simpleCommandNames`: skip `VAR=value`
assignments (a token containing `=` that does not begin with `-`), skip
flags (tokens beginning with `-`), and return the path basename of the
first remaining token. -/
def pickCmd : List (List Char) → Option (List Char)
  | [] => none
  | t :: rest =>
    if t.contains '=' && !Tally.leadsWith ['-'] t then pickCmd rest
    else if Tally.leadsWith ['-'] t then pickCmd rest
    else some (Tally.goPathBaseL t)

/-- Embeds `shell.simpleCommandNames`: the fallback used when the
structured shell parser fails. -/
def simpleCommandNames (script : String) : List String :=
  ((Tally.splitCh markerCh (normalizeScript script.data)).filterMap fun seq =>
    let sq := Tally.goTrimSpace seq
    if sq = [] then none
    else pickCmd (Tally.goFields sq)).map String.mk

/-- Embeds `shell.CommandNames`, with the external mvdan.cc parser and AST
walk taken as an oracle returning the extracted names on success: on parse
failure (`none`) the word-split fallback is used instead of skipping
analysis. -/
def CommandNames (parseOracle : String → Option (List String))
    (script : String) : List String :=
  match parseOracle script with
  | some names => names
  | none => simpleCommandNames script

/-- The separators of claim C7 read literally: segment breaks at `&&`, `||`,
`;`, `|`, backtick, `$(`, both parentheses, and newlines (longest first
where they overlap). -/
def claimSeparators : List (List Char) :=
  ["&&".data, "||".data, ";".data, "|".data, [Tally.btCh], "$(".data,
    ['('], [')'], [Tally.nlCh]]

/-- The first claimed separator matching at the head of the list. -/
def firstClaimSep (l : List Char) : Option (List Char) :=
  claimSeparators.find? fun sep => Tally.leadsWith sep l

/-- Fuel-driven segment scanner for the claim's literal reading: every
listed separator ends a segment. -/
def claimSegsFuel : Nat → List Char → List (List Char)
  | 0, _ => [[]]
  | _ + 1, [] => [[]]
  | fuel + 1, l@(c :: rest) =>
    match firstClaimSep l with
    | some sep => [] :: claimSegsFuel fuel (l.drop sep.length)
    | none =>
      match claimSegsFuel fuel rest with
      | [] => [[c]]
      | s :: ss => (c :: s) :: ss

/-- Segments of a script under the claim's literal reading. -/
def claimSegs (l : List Char) : List (List Char) := claimSegsFuel l.length l

/-- The fallback as claim C7 describes it: split the script at the claimed
separators, then per segment skip assignments and flags and take the path
basename of the first remaining token. -/
def claimFallback (script : String) : List String :=
  ((claimSegs script.data).filterMap fun seq =>
    let sq := Tally.goTrimSpace seq
    if sq = [] then none
    else pickCmd (Tally.goFields sq)).map String.mk

/-- The fallback as the amended claim describes it: over the marker-split
segments of the normalized script, the path basename of the first token
that is neither an assignment nor a flag. -/
def amendedFallback (script : String) : List String :=
  (Tally.splitCh markerCh (normalizeScript script.data)).filterMap fun seq =>
    ((Tally.goFields (Tally.goTrimSpace seq)).find? fun t =>
        !(t.contains '=' && !Tally.leadsWith ['-'] t) &&
          !Tally.leadsWith ['-'] t).map
      fun t => String.mk (Tally.goPathBaseL t)

end Shell

end Tally

namespace Tally

/-- A pattern is found at the head of any list it starts. -/
theorem leadsWith_append_self (p r : List Char) : leadsWith p (p ++ r) = true := by
  induction p with
  | nil => rfl
  | cons c cs ih => simp [leadsWith, ih]

/-- A head occurrence is an occurrence. -/
theorem hasSubSeg_of_leads {pat l : List Char} (h : leadsWith pat l = true) :
    hasSubSeg pat l = true := by
  cases l with
  | nil => simpa [hasSubSeg] using h
  | cons c cs => simp [hasSubSeg, h]

/-- Occurrences survive prepending a character. -/
theorem hasSubSeg_cons {pat cs : List Char} (c : Char)
    (h : hasSubSeg pat cs = true) : hasSubSeg pat (c :: cs) = true := by
  simp [hasSubSeg, h]

/-- A pattern occurs in any list that contains it between two arbitrary
pieces. -/
theorem hasSubSeg_append (pre pat post : List Char) :
    hasSubSeg pat (pre ++ (pat ++ post)) = true := by
  induction pre with
  | nil => exact hasSubSeg_of_leads (leadsWith_append_self pat post)
  | cons c cs ih => exact hasSubSeg_cons c ih

end Tally

namespace Tally.Lint

/-- C4: `CheckMaxLines` returns a violation iff the counted total strictly
exceeds the maximum; the violation is file-level (line 0), has rule code
`max-lines`, and message `file has <total> lines, maximum allowed is <max>`;
a 3-line file with max 2 yields exactly that violation, and a file whose
total equals the maximum yields none. -/
theorem checkMaxLines_spec :
    (∀ (pr : ParseResult) (maxL : Int),
      ((CheckMaxLines pr maxL).isSome ↔ pr.totalLines > maxL) ∧
      (∀ v, CheckMaxLines pr maxL = some v →
        v.rule = "max-lines" ∧ v.line = 0 ∧ v.severity = "error" ∧
        v.message = "file has " ++ toString pr.totalLines ++
          " lines, maximum allowed is " ++ toString maxL)) ∧
    (CheckMaxLines ⟨3, 0, 0⟩ 2 =
      some ⟨"max-lines", 0, "file has 3 lines, maximum allowed is 2", "error"⟩) ∧
    (∀ (pr : ParseResult), CheckMaxLines pr pr.totalLines = none) := by
  refine ⟨fun pr maxL => ⟨?_, ?_⟩, by decide, fun pr => ?_⟩
  · unfold CheckMaxLines
    by_cases h : pr.totalLines > maxL
    · simp [h]
    · simp [h]
  · intro v hv
    unfold CheckMaxLines at hv
    by_cases h : pr.totalLines > maxL
    · simp only [h, if_pos] at hv
      cases hv
      exact ⟨rfl, rfl, rfl, rfl⟩
    · simp [h] at hv
  · unfold CheckMaxLines
    simp

/-- Closed instance of `checkMaxLines_spec`: the 3-line / max-2 scenario,
with every hypothesis discharged on the concrete input. -/
theorem checkMaxLines_spec_witness :
    (CheckMaxLines ⟨3, 0, 0⟩ 2).isSome ∧
    ((⟨"max-lines", 0, "file has 3 lines, maximum allowed is 2", "error"⟩ :
        Issue).rule = "max-lines" ∧
      (⟨"max-lines", 0, "file has 3 lines, maximum allowed is 2", "error"⟩ :
        Issue).line = 0 ∧
      (⟨"max-lines", 0, "file has 3 lines, maximum allowed is 2", "error"⟩ :
        Issue).severity = "error" ∧
      (⟨"max-lines", 0, "file has 3 lines, maximum allowed is 2", "error"⟩ :
        Issue).message = "file has 3 lines, maximum allowed is 2") :=
  ⟨((checkMaxLines_spec.1 ⟨3, 0, 0⟩ 2).1).mpr (by decide),
   (checkMaxLines_spec.1 ⟨3, 0, 0⟩ 2).2
     ⟨"max-lines", 0, "file has 3 lines, maximum allowed is 2", "error"⟩
     (by decide)⟩

end Tally.Lint

namespace Tally.Hadolint

/-- C5: `CheckDuplicateStageName` returns `(i, true)` iff the table already
maps the name to index `i` (the first binding); `DL3024Message` always
contains the double-quoted stage name and the text `stage <i>`; and the
duplicate-alias Dockerfile `FROM node AS foo` / `FROM scratch AS foo`
produces one `hadolint/DL3024` construction issue at line 2 whose message
contains `"foo"` and `stage 0`. -/
theorem dl3024_spec :
    (∀ (name : String) (table : List (String × Nat)) (i : Nat),
        CheckDuplicateStageName name table = (i, true) ↔
          table.lookup name = some i) ∧
    (∀ (name : String) (i : Nat),
        containsSubstr (DL3024Message name i) (goQuote name) = true ∧
        containsSubstr (DL3024Message name i) ("stage " ++ toString i) = true) ∧
    (buildConstructionIssues [⟨some "foo", 1, []⟩, ⟨some "foo", 2, []⟩] =
      [⟨"hadolint/DL3024", 2, DL3024Message "foo" 0⟩]) ∧
    (containsSubstr (DL3024Message "foo" 0) "\"foo\"" = true ∧
     containsSubstr (DL3024Message "foo" 0) "stage 0" = true) := by
  refine ⟨fun name table i => ?_, fun name i => ⟨?_, ?_⟩, by decide, by decide⟩
  · unfold CheckDuplicateStageName
    cases h : table.lookup name with
    | none => simp
    | some j => simp [Prod.ext_iff, eq_comm]
  · show hasSubSeg (goQuote name).data (DL3024Message name i).data = true
    have : (DL3024Message name i).data =
        "Stage name ".data ++ ((goQuote name).data ++
          (" is already used on stage " ++ toString i).data) := by
      simp [DL3024Message, List.append_assoc]
    rw [this]
    exact hasSubSeg_append _ _ _
  · show hasSubSeg ("stage " ++ toString i).data (DL3024Message name i).data = true
    have : (DL3024Message name i).data =
        ("Stage name ".data ++ (goQuote name).data ++
          " is already used on ".data) ++
          (("stage " ++ toString i).data ++ []) := by
      simp [DL3024Message, List.append_assoc]
    rw [this]
    exact hasSubSeg_append _ _ _

/-- C6: `IsSelfReferencingCopy` returns true iff the table maps the `--from`
value to exactly the current stage's index (unknown names and references to
other stages yield false), and `FROM alpine AS a` / `COPY --from=a /x /x`
produces exactly one `hadolint/DL3023` construction issue. -/
theorem dl3023_spec :
    (∀ (idx : Nat) (cf : String) (table : List (String × Nat)),
        IsSelfReferencingCopy idx cf table = true ↔
          table.lookup cf = some idx) ∧
    (buildConstructionIssues [⟨some "a", 1, [("a", 2)]⟩] =
      [⟨"hadolint/DL3023", 2, DL3023Message "a" "a"⟩]) := by
  refine ⟨fun idx cf table => ?_, by decide⟩
  unfold IsSelfReferencingCopy
  cases h : table.lookup cf with
  | none => simp
  | some j => simp [eq_comm]

end Tally.Hadolint

namespace Tally.DL4006

/-- Field computation of `updateFromShell`: the non-POSIX flag is exactly
`isNonPOSIXShellCmd`. -/
theorem updateFromShell_isNonPOSIX (s : List String) :
    (updateFromShell s).isNonPOSIX = isNonPOSIXShellCmd s := by
  unfold updateFromShell
  cases h : isNonPOSIXShellCmd s <;> simp [h]

/-- Field computation of `updateFromShell`: the pipefail bit is set iff the
shell is POSIX and carries `-o pipefail`. -/
theorem updateFromShell_pipefailSet (s : List String) :
    (updateFromShell s).pipefailSet =
      (!isNonPOSIXShellCmd s && hasPipefailOption s) := by
  unfold updateFromShell
  cases h : isNonPOSIXShellCmd s <;> simp [h]

/-- `checkRun` as a single conjunction test. -/
theorem checkRun_eq (oracle : ShellOracle) (input : LintInput)
    (sem : Option StageSem) (st : StageState) (r : RunCmd) :
    checkRun oracle input sem st r =
      if r.prependShell && !st.isNonPOSIX && !st.pipefailSet &&
          oracle.hasPipes r.cmdStr (stageVariant sem) then
        some (mkDL4006Violation oracle input sem r)
      else none := by
  unfold checkRun
  cases hp : r.prependShell <;> cases hn : st.isNonPOSIX <;>
    cases hs : st.pipefailSet <;>
    cases hh : oracle.hasPipes r.cmdStr (stageVariant sem) <;>
    simp [hp, hn, hs, hh]

/-- The empty prefix leaves the state unchanged. -/
theorem stateAt_nil (st : StageState) : stateAt st [] = st := rfl

/-- A SHELL instruction at the head of the prefix resets the base state. -/
theorem stateAt_cons_shell (st : StageState) (s : List String) (l : List Command) :
    stateAt st (Command.shellIns s :: l) = stateAt (updateFromShell s) l := by
  unfold stateAt lastShellOf
  rw [List.filterMap_cons]
  cases h : l.filterMap fun c =>
      match c with
      | Command.shellIns s => some s
      | _ => none with
  | nil => simp [h]
  | cons x xs =>
    simp only [h]
    cases hg : (x :: xs).getLast? with
    | none => simp at hg
    | some y => simp only [List.getLast?_cons_cons, hg]

/-- A RUN at the head of the prefix does not change the state. -/
theorem stateAt_cons_run (st : StageState) (r : RunCmd) (l : List Command) :
    stateAt st (Command.runIns r :: l) = stateAt st l := by
  unfold stateAt lastShellOf
  rw [List.filterMap_cons]

/-- A non-SHELL, non-RUN instruction at the head of the prefix does not
change the state. -/
theorem stateAt_cons_other (st : StageState) (l : List Command) :
    stateAt st (Command.otherIns :: l) = stateAt st l := by
  unfold stateAt lastShellOf
  rw [List.filterMap_cons]

/-- `declNonPOSIX` is the non-POSIX field of the state determined by the
most recent SHELL over the initial state. -/
theorem declNonPOSIX_eq (sem : Option StageSem) (p : List Command) :
    declNonPOSIX sem p = (stateAt (initStageState sem) p).isNonPOSIX := by
  unfold declNonPOSIX stateAt
  cases h : lastShellOf p <;> simp [h, updateFromShell_isNonPOSIX]

/-- `declPipefail` is the pipefail field of the state determined by the most
recent SHELL over the initial state. -/
theorem declPipefail_eq (sem : Option StageSem) (p : List Command) :
    declPipefail p = (stateAt (initStageState sem) p).pipefailSet := by
  unfold declPipefail stateAt
  cases h : lastShellOf p <;>
    simp [h, updateFromShell_pipefailSet, initStageState]
  cases sem <;> simp

/-- The stage walk of `Check` equals its declarative restatement, for every
base state. -/
theorem checkCmds_eq_declFrom (oracle : ShellOracle) (input : LintInput)
    (sem : Option StageSem) :
    ∀ (cmds : List Command) (st : StageState),
      checkCmds oracle input sem st cmds =
        declStageFrom oracle input sem st cmds := by
  intro cmds
  induction cmds with
  | nil => intro st; rfl
  | cons c rest ih =>
    intro st
    unfold declStageFrom
    rw [List.length_cons, List.range_succ_eq_map, List.flatMap_cons,
      List.flatMap_map]
    cases c with
    | shellIns s =>
      show checkCmds oracle input sem (updateFromShell s) rest = _
      simp only [List.getElem?_cons_zero, List.getElem?_cons_succ,
        List.take_zero, List.take_succ_cons, Function.comp_def,
        stateAt_cons_shell]
      rw [ih (updateFromShell s)]
      rfl
    | runIns r =>
      show (checkRun oracle input sem st r).toList ++
          checkCmds oracle input sem st rest = _
      simp only [List.getElem?_cons_zero, List.getElem?_cons_succ,
        List.take_zero, List.take_succ_cons, Function.comp_def,
        stateAt_cons_run, stateAt_nil]
      rw [ih st, checkRun_eq]
      have htl : ∀ (c : Bool) (v : Violation),
          (if c = true then some v else none).toList =
            (if c = true then [v] else []) := by
        intro c v; cases c <;> simp
      rw [htl]
      rfl
    | otherIns =>
      show checkCmds oracle input sem st rest = _
      simp only [List.getElem?_cons_zero, List.getElem?_cons_succ,
        List.take_zero, List.take_succ_cons, Function.comp_def,
        stateAt_cons_other]
      rw [ih st]
      rfl

end Tally.DL4006

namespace Tally.DL4006

/-- Completeness of the argument scan: an `-o`/combined-flag position
followed by `pipefail` makes it fire. -/
theorem pipefailArgScan_of_get :
    ∀ (args : List String) (i : Nat) (a : String),
      args[i]? = some a →
      (a = "-o" ∨ (a.data.length > 1 ∧ Tally.leadsWith ['-'] a.data = true ∧
        Tally.leadsWith ['-', '-'] a.data = false ∧
        (a.data.drop 1).contains 'o' = true)) →
      args[i + 1]? = some "pipefail" →
      pipefailArgScan args = true := by
  intro args
  induction args with
  | nil => intro i a h; simp at h
  | cons x rest ih =>
    intro i a ha hcond hnext
    cases i with
    | zero =>
      simp only [List.getElem?_cons_zero, Option.some.injEq] at ha
      subst ha
      simp only [List.getElem?_cons_succ] at hnext
      cases rest with
      | nil => simp at hnext
      | cons b rest2 =>
        simp only [List.getElem?_cons_zero, Option.some.injEq] at hnext
        subst hnext
        unfold pipefailArgScan
        rcases hcond with h1 | ⟨h2, h3, h4, h5⟩
        · subst h1; simp
        · simp [h3, h4]
          exact Or.inl (Or.inr ⟨h2, by simpa using h5⟩)
    | succ j =>
      simp only [List.getElem?_cons_succ] at ha hnext
      have hr := ih j a ha hcond hnext
      cases rest with
      | nil => simp at ha
      | cons b rest2 =>
        unfold pipefailArgScan
        rw [hr]
        simp

/-- C9: `hasPipefailOption` returns false whenever the first element's
normalized basename is not `bash`, `zsh` or `ash` — in particular for
`SHELL ["/bin/sh", "-o", "pipefail", "-c"]` — and returns true for those
shells when a standalone `-o` or a combined short flag containing `o` is
immediately followed by the argument `pipefail`. -/
theorem dl4006_hasPipefail_spec :
    (∀ (a0 : String) (args : List String),
        pipefailValidShells (shellBaseName a0) = false →
        hasPipefailOption (a0 :: args) = false) ∧
    (hasPipefailOption ["/bin/sh", "-o", "pipefail", "-c"] = false) ∧
    (∀ (a0 : String) (args : List String) (i : Nat) (a : String),
        pipefailValidShells (shellBaseName a0) = true →
        args[i]? = some a →
        (a = "-o" ∨ (a.data.length > 1 ∧ Tally.leadsWith ['-'] a.data = true ∧
          Tally.leadsWith ['-', '-'] a.data = false ∧
          (a.data.drop 1).contains 'o' = true)) →
        args[i + 1]? = some "pipefail" →
        hasPipefailOption (a0 :: args) = true) := by
  refine ⟨?_, by decide, ?_⟩
  · intro a0 args h
    cases args with
    | nil => rfl
    | cons x rest => simp [hasPipefailOption, h]
  · intro a0 args i a hvalid ha hcond hnext
    have hscan := pipefailArgScan_of_get args i a ha hcond hnext
    cases args with
    | nil => simp at ha
    | cons x rest => simp [hasPipefailOption, hvalid, hscan]

/-- Closed instance of `dl4006_hasPipefail_spec`: `/bin/sh` (invalid shell)
yields false, bash with a combined `-eo pipefail` yields true; every
hypothesis discharged on the concrete inputs. -/
theorem dl4006_hasPipefail_spec_witness :
    hasPipefailOption ["/bin/sh", "-eo", "pipefail", "-c"] = false ∧
    hasPipefailOption ["/bin/bash", "-eo", "pipefail", "-c"] = true :=
  ⟨dl4006_hasPipefail_spec.1 "/bin/sh" ["-eo", "pipefail", "-c"] (by decide),
   dl4006_hasPipefail_spec.2.2 "/bin/bash" ["-eo", "pipefail", "-c"] 0 "-eo"
     (by decide) (by decide)
     (Or.inr ⟨by decide, by decide, by decide, by decide⟩) (by decide)⟩

/-- C10: DL4006 never reports an exec-form RUN — for `PrependShell = false`,
`checkRun` returns no violation (whatever the state, semantic info and pipe
oracle say) and `generateFix` returns no fix. -/
theorem dl4006_execform_spec :
    ∀ (oracle : ShellOracle) (input : LintInput) (sem : Option StageSem)
      (state : StageState) (run : RunCmd),
      run.prependShell = false →
      checkRun oracle input sem state run = none ∧
      generateFix oracle input sem run = none := by
  intro oracle input sem state run h
  constructor
  · unfold checkRun
    simp [h]
  · unfold generateFix
    simp [h]

/-- Closed instance of `dl4006_execform_spec` at a concrete exec-form RUN
whose command string contains a pipe. -/
theorem dl4006_execform_spec_witness :
    checkRun specOracle c1Input none ⟨false, false⟩
      { prependShell := false, cmdStr := "cat a | grep b"
        line := 1, col := 0, hasLoc := true } = none ∧
    generateFix specOracle c1Input none
      { prependShell := false, cmdStr := "cat a | grep b"
        line := 1, col := 0, hasLoc := true } = none :=
  dl4006_execform_spec specOracle c1Input none ⟨false, false⟩
    { prependShell := false, cmdStr := "cat a | grep b"
      line := 1, col := 0, hasLoc := true } rfl

/-- C2 (amended): `Check` equals its declarative restatement — a RUN is
reported iff it is shell-form, its command string has a pipe, and the
non-POSIX flag and pipefail bit determined by the most recent SHELL
instruction before it in its own stage (directive/default initial state if
none) are both unset; state is rebuilt fresh for every stage, so SHELLs
never leak across stages and only affect later RUNs of their stage. -/
theorem dl4006_check_eq_decl (oracle : ShellOracle) (input : LintInput) :
    Check oracle input = declCheck oracle input := by
  unfold Check declCheck
  congr 1
  funext stage
  rw [checkCmds_eq_declFrom]
  unfold declStage declStageFrom
  simp only [declNonPOSIX_eq, declPipefail_eq stage.sem]

set_option maxRecDepth 20000 in
set_option maxHeartbeats 1000000 in
/-- C2 counterexample to the literal claim: in the stage
`SHELL bash -o pipefail -c` / `SHELL bash -c` / piped RUN, the RUN is
reported even though a SHELL instruction earlier in the same stage did set
`-o pipefail` with a pipefail-capable shell. -/
theorem dl4006_c2_counterexample :
    Check specOracle c2Input =
      [mkDL4006Violation specOracle c2Input none c2Run] ∧
    someEarlierShellSetPipefail (c2Cmds.take 2) = true := by
  refine ⟨by decide, by decide⟩

set_option maxRecDepth 20000 in
set_option maxHeartbeats 1000000 in
/-- C1 (amended): on `FROM alpine` + `RUN cat /etc/os-release | grep VERSION`,
DL4006 emits exactly one violation `hadolint/DL4006` at line 2, whose
suggested fix inserts `SHELL ["/bin/bash", "-o", "pipefail", "-c"]` plus a
newline at line 2, column 0 (before the RUN). -/
theorem dl4006_c1_scenario :
    Check specOracle c1Input =
      [{ file := "Dockerfile", line := 2, col := 0
         code := "hadolint/DL4006"
         message := "set the SHELL option -o pipefail before RUN with a pipe in it"
         detail := "If you are using /bin/sh in an alpine image or if your shell is symlinked to busybox " ++
           "then consider explicitly setting your SHELL to /bin/ash, or disable this check. " ++
           "Use SHELL [\"/bin/bash\", \"-o\", \"pipefail\", \"-c\"] before the RUN instruction."
         fix := some { description := "Add SHELL with -o pipefail before RUN"
                       safety := FixSafety.suggestion
                       edits := [{ startLine := 2, startCol := 0
                                   endLine := 2, endCol := 0
                                   newText := "SHELL [\"/bin/bash\", \"-o\", \"pipefail\", \"-c\"]\n" }]
                       isPreferred := false } }] := by
  decide

set_option maxRecDepth 20000 in
set_option maxHeartbeats 1000000 in
/-- C1 counterexample: in the `FROM alpine` piped-RUN scenario the single
emitted violation's fix inserts the `/bin/bash` SHELL line, which differs
from the claimed `/bin/ash` line. -/
theorem dl4006_c1_counterexample :
    ((Check specOracle c1Input).map fun v => (v.code, v.line)) =
      [("hadolint/DL4006", 2)] ∧
    ((Check specOracle c1Input).map fun v =>
        v.fix.map fun f => f.edits.map fun e =>
          (e.startLine, e.startCol, e.newText)) =
      [some [(2, 0, "SHELL [\"/bin/bash\", \"-o\", \"pipefail\", \"-c\"]\n")]] ∧
    ("SHELL [\"/bin/bash\", \"-o\", \"pipefail\", \"-c\"]\n" ≠
      "SHELL [\"/bin/ash\", \"-o\", \"pipefail\", \"-c\"]\n") := by
  refine ⟨by decide, by decide, by decide⟩

end Tally.DL4006

namespace Tally.Dockerfile

/-- `splitCh` never returns the empty list. -/
theorem splitCh_ne_nil (sep : Char) (l : List Char) :
    Tally.splitCh sep l ≠ [] := by
  cases l with
  | nil => simp [Tally.splitCh]
  | cons c rest =>
    unfold Tally.splitCh
    by_cases hc : c = sep
    · simp [hc]
    · simp only [hc, if_neg, ite_false]
      cases Tally.splitCh sep rest <;> simp

/-- Appending a separator appends one empty segment. -/
theorem splitCh_append_sep (sep : Char) (xs : List Char) :
    Tally.splitCh sep (xs ++ [sep]) = Tally.splitCh sep xs ++ [[]] := by
  induction xs with
  | nil => simp [Tally.splitCh]
  | cons c r ih =>
    by_cases hc : c = sep
    · subst hc
      simp [Tally.splitCh, ih]
    · obtain ⟨s, ss, hss⟩ : ∃ s ss, Tally.splitCh sep r = s :: ss := by
        cases h : Tally.splitCh sep r with
        | nil => exact absurd h (splitCh_ne_nil sep r)
        | cons s ss => exact ⟨s, ss, rfl⟩
      simp [Tally.splitCh, hc, ih, hss]

/-- The scanner yields nothing on empty input, whatever the fuel. -/
theorem scanTokensFuel_nil (f : Nat) : scanTokensFuel f [] = [] := by
  cases f <;> rfl

/-- `idxOfNl` is `none` exactly on newline-free lists. -/
theorem idxOfNl_eq_none_iff (l : List Char) :
    idxOfNl l = none ↔ Tally.nlCh ∉ l := by
  induction l with
  | nil => simp [idxOfNl]
  | cons c rest ih =>
    by_cases hc : c = Tally.nlCh
    · subst hc
      simp [idxOfNl]
    · have hc' : Tally.nlCh ≠ c := fun h => hc h.symm
      simp [idxOfNl, hc, hc', ih]

/-- A newline-free list is a single segment. -/
theorem splitCh_of_not_mem (sep : Char) (l : List Char) (h : sep ∉ l) :
    Tally.splitCh sep l = [l] := by
  induction l with
  | nil => rfl
  | cons c rest ih =>
    have hc : ¬(c = sep) := fun hcc => h (by simp [hcc])
    have hr : sep ∉ rest := fun hm => h (by simp [hm])
    simp [Tally.splitCh, hc, ih hr]

/-- A first-newline index is in range. -/
theorem idxOfNl_lt_length :
    ∀ (l : List Char) (i : Nat), idxOfNl l = some i → i < l.length := by
  intro l
  induction l with
  | nil => intro i h; simp [idxOfNl] at h
  | cons c rest ih =>
    intro i h
    by_cases hc : c = Tally.nlCh
    · subst hc
      simp [idxOfNl] at h
      simp only [List.length_cons]
      omega
    · simp only [idxOfNl, hc, ite_false] at h
      cases hr : idxOfNl rest with
      | none => rw [hr] at h; simp at h
      | some j =>
        rw [hr] at h
        simp at h
        have := ih j hr
        simp only [List.length_cons]
        omega

/-- The tail from a first-newline index starts with the newline. -/
theorem idxOfNl_drop :
    ∀ (l : List Char) (i : Nat), idxOfNl l = some i →
      l.drop i = Tally.nlCh :: l.drop (i + 1) := by
  intro l
  induction l with
  | nil => intro i h; simp [idxOfNl] at h
  | cons c rest ih =>
    intro i h
    by_cases hc : c = Tally.nlCh
    · subst hc
      simp [idxOfNl] at h
      subst h
      simp
    · simp only [idxOfNl, hc, ite_false] at h
      cases hr : idxOfNl rest with
      | none => rw [hr] at h; simp at h
      | some j =>
        rw [hr] at h
        simp at h
        subst h
        simpa using ih j hr

/-- Splitting at the first newline. -/
theorem splitCh_first_idx :
    ∀ (l : List Char) (i : Nat), idxOfNl l = some i →
      Tally.splitCh Tally.nlCh l =
        l.take i :: Tally.splitCh Tally.nlCh (l.drop (i + 1)) := by
  intro l
  induction l with
  | nil => intro i h; simp [idxOfNl] at h
  | cons c rest ih =>
    intro i h
    by_cases hc : c = Tally.nlCh
    · subst hc
      simp [idxOfNl] at h
      subst h
      simp [Tally.splitCh]
    · simp only [idxOfNl, hc, ite_false] at h
      cases hr : idxOfNl rest with
      | none => rw [hr] at h; simp at h
      | some j =>
        rw [hr] at h
        simp at h
        subst h
        simp [Tally.splitCh, hc, ih j hr]

/-- The faithful scanner agrees with the full line split whenever every
line stays below the 64 KiB token-size limit. -/
theorem scanTokensFuel_eq_allLines :
    ∀ (fuel : Nat) (l : List Char), l.length ≤ fuel → linesWithinLimit l →
      scanTokensFuel fuel l = allLines l := by
  intro fuel
  induction fuel with
  | zero =>
    intro l hlen _
    have hnil : l = [] := by
      cases l with
      | nil => rfl
      | cons c rest => simp at hlen
    subst hnil
    rfl
  | succ f ih =>
    intro l hlen hshort
    cases l with
    | nil => rfl
    | cons c rest =>
      cases hI : idxOfNl (c :: rest) with
      | none =>
        have hmem : Tally.nlCh ∉ (c :: rest) := (idxOfNl_eq_none_iff _).mp hI
        have hsplit := splitCh_of_not_mem Tally.nlCh (c :: rest) hmem
        have hW : (c :: rest).length < maxScanTokenSize :=
          hshort (c :: rest) (by rw [hsplit]; simp)
        have hW' : rest.length + 1 < maxScanTokenSize := by
          simpa using hW
        have hlast : ¬((c :: rest).getLast? = some Tally.nlCh) := by
          intro hcontra
          obtain ⟨hne, heq⟩ := List.mem_getLast?_eq_getLast
            (Option.mem_def.mpr hcontra)
          exact hmem (by rw [heq]; exact List.getLast_mem hne)
        simp [scanTokensFuel, hI, hW', allLines, hlast, hsplit]
      | some i =>
        have hdecomp := splitCh_first_idx (c :: rest) i hI
        have hi_lt : i < (c :: rest).length := idxOfNl_lt_length _ _ hI
        have hlen_take : ((c :: rest).take i).length = i := by
          rw [List.length_take]
          exact Nat.min_eq_left (Nat.le_of_lt hi_lt)
        have hW : i < maxScanTokenSize := by
          have h1 := hshort ((c :: rest).take i) (by rw [hdecomp]; simp)
          rwa [hlen_take] at h1
        have hdrop := idxOfNl_drop _ _ hI
        have hshort' : linesWithinLimit ((c :: rest).drop (i + 1)) := by
          intro seg hseg
          exact hshort seg (by rw [hdecomp]; exact List.mem_cons_of_mem _ hseg)
        have hlen' : ((c :: rest).drop (i + 1)).length ≤ f := by
          simp only [List.length_drop, List.length_cons]
          simp only [List.length_cons] at hlen
          omega
        have hIH := ih _ hlen' hshort'
        cases hl' : (c :: rest).drop (i + 1) with
        | nil =>
          have hl_eq : (c :: rest) = (c :: rest).take i ++ [Tally.nlCh] := by
            conv_lhs => rw [← List.take_append_drop i (c :: rest)]
            rw [hdrop, hl']
          have hlast : (c :: rest).getLast? = some Tally.nlCh := by
            rw [hl_eq]
            exact List.getLast?_concat _
          have hsplit2 : Tally.splitCh Tally.nlCh (c :: rest) =
              [(c :: rest).take i, []] := by
            rw [hdecomp, hl']
            rfl
          have lhs_eq : scanTokensFuel (f + 1) (c :: rest) =
              [dropCR ((c :: rest).take i)] := by
            simp [scanTokensFuel, hI, hW, hl', scanTokensFuel_nil]
          have rhs_eq : allLines (c :: rest) =
              [dropCR ((c :: rest).take i)] := by
            unfold allLines
            rw [if_neg (List.cons_ne_nil c rest), if_pos hlast, hsplit2]
            rfl
          rw [lhs_eq, rhs_eq]
        | cons d rest2 =>
          have hne' : (c :: rest).drop (i + 1) ≠ [] := by rw [hl']; simp
          have hlast_eq : (c :: rest).getLast? =
              ((c :: rest).drop (i + 1)).getLast? := by
            conv_lhs => rw [← List.take_append_drop (i + 1) (c :: rest)]
            rw [List.getLast?_append_of_ne_nil _ hne']
          obtain ⟨s, ss, hss⟩ : ∃ s ss,
              Tally.splitCh Tally.nlCh ((c :: rest).drop (i + 1)) = s :: ss := by
            cases h : Tally.splitCh Tally.nlCh ((c :: rest).drop (i + 1)) with
            | nil => exact absurd h (splitCh_ne_nil _ _)
            | cons s ss => exact ⟨s, ss, rfl⟩
          have lhs_eq : scanTokensFuel (f + 1) (c :: rest) =
              dropCR ((c :: rest).take i) ::
                allLines ((c :: rest).drop (i + 1)) := by
            simp [scanTokensFuel, hI, hW]
            simpa using hIH
          rw [lhs_eq]
          by_cases hlast' : ((c :: rest).drop (i + 1)).getLast? = some Tally.nlCh
          · have hlast2 : (c :: rest).getLast? = some Tally.nlCh :=
              hlast_eq.trans hlast'
            unfold allLines
            rw [if_neg (List.cons_ne_nil c rest), if_pos hlast2,
              if_neg hne', if_pos hlast', hdecomp]
            simp only [hss, List.dropLast_cons₂, List.map_cons]
          · have hlast2 : ¬((c :: rest).getLast? = some Tally.nlCh) := by
              rw [hlast_eq]
              exact hlast'
            unfold allLines
            rw [if_neg (List.cons_ne_nil c rest), if_neg hlast2,
              if_neg hne', if_neg hlast', hdecomp]
            simp only [List.map_cons]

/-- A trailing newline added to a buffer that does not end in one leaves the
full line split unchanged (it becomes the terminator of the last line). -/
theorem allLines_append_nl (content : List Char) (h1 : content ≠ [])
    (h2 : content.getLast? ≠ some Tally.nlCh) :
    allLines (content ++ [Tally.nlCh]) = allLines content := by
  unfold allLines
  have hne : content ++ [Tally.nlCh] ≠ [] := by simp
  have hlast : (content ++ [Tally.nlCh]).getLast? = some Tally.nlCh := by
    simp [List.getLast?_concat]
  rw [if_neg hne, if_pos hlast, if_neg h1, if_neg h2,
    splitCh_append_sep, List.dropLast_concat]

/-- Two trailing newlines added to such a buffer split as the original
lines plus one empty line. -/
theorem allLines_append_two_nl (content : List Char) (h1 : content ≠ [])
    (h2 : content.getLast? ≠ some Tally.nlCh) :
    allLines (content ++ [Tally.nlCh, Tally.nlCh]) =
      allLines content ++ [[]] := by
  have hsplit : content ++ [Tally.nlCh, Tally.nlCh] =
      (content ++ [Tally.nlCh]) ++ [Tally.nlCh] := by simp
  unfold allLines
  have hne : content ++ [Tally.nlCh, Tally.nlCh] ≠ [] := by simp
  have hlast : (content ++ [Tally.nlCh, Tally.nlCh]).getLast? =
      some Tally.nlCh := by
    rw [hsplit, List.getLast?_concat]
  rw [if_neg hne, if_pos hlast, if_neg h1, if_neg h2, hsplit,
    splitCh_append_sep, splitCh_append_sep, List.dropLast_concat,
    List.map_append]
  rfl

/-- Short lines stay short after terminating the last line. -/
theorem linesWithinLimit_append_nl (content : List Char)
    (h : linesWithinLimit content) :
    linesWithinLimit (content ++ [Tally.nlCh]) := by
  intro seg hseg
  rw [splitCh_append_sep] at hseg
  rcases List.mem_append.mp hseg with h1 | h2
  · exact h seg h1
  · simp at h2
    subst h2
    simp [maxScanTokenSize]

/-- Short lines stay short after appending two newlines. -/
theorem linesWithinLimit_append_two_nl (content : List Char)
    (h : linesWithinLimit content) :
    linesWithinLimit (content ++ [Tally.nlCh, Tally.nlCh]) := by
  intro seg hseg
  have hsplit : content ++ [Tally.nlCh, Tally.nlCh] =
      (content ++ [Tally.nlCh]) ++ [Tally.nlCh] := by simp
  rw [hsplit, splitCh_append_sep, splitCh_append_sep] at hseg
  rcases List.mem_append.mp hseg with h1 | h2
  · rcases List.mem_append.mp h1 with h3 | h4
    · exact h seg h3
    · simp at h4
      subst h4
      simp [maxScanTokenSize]
  · simp at h2
    subst h2
    simp [maxScanTokenSize]

/-- A newline-free prefix shifts the first-newline index of what follows. -/
theorem idxOfNl_append_nl (l l2 : List Char) (h : idxOfNl l = none) :
    idxOfNl (l ++ Tally.nlCh :: l2) = some l.length := by
  induction l with
  | nil => simp [idxOfNl]
  | cons c rest ih =>
    by_cases hc : c = Tally.nlCh
    · subst hc
      simp [idxOfNl] at h
    · simp only [idxOfNl, hc, ite_false] at h
      have hr : idxOfNl rest = none := by
        cases hr : idxOfNl rest with
        | none => rfl
        | some j => rw [hr] at h; simp at h
      simp [idxOfNl, hc, ih hr]

/-- The modelled scanner really stops on an over-long line: a newline-free
buffer of at least `MaxScanTokenSize` bytes yields zero counted lines, and
still does after appending two newlines (`ErrTooLong` is hit before any
token, and `countLines` ignores the error) — this is why
`countLines_trailing_newline` assumes `linesWithinLimit`. -/
theorem countLines_stops_on_long_line (l : List Char)
    (hnl : idxOfNl l = none) (hlen : maxScanTokenSize ≤ l.length) :
    countLines l = ⟨0, 0, 0⟩ ∧
    countLines (l ++ [Tally.nlCh, Tally.nlCh]) = ⟨0, 0, 0⟩ := by
  cases l with
  | nil => simp [maxScanTokenSize] at hlen
  | cons c rest =>
    have hW' : ¬(rest.length + 1 < maxScanTokenSize) := by
      simp only [List.length_cons] at hlen
      omega
    constructor
    · have hscan : scanLines (c :: rest) = [] := by
        unfold scanLines
        simp [scanTokensFuel, hnl, hW']
      unfold countLines
      rw [hscan]
      rfl
    · have hidx : idxOfNl (c :: (rest ++ [Tally.nlCh, Tally.nlCh])) =
          some (rest.length + 1) := by
        have h0 := idxOfNl_append_nl (c :: rest) [Tally.nlCh] hnl
        simpa using h0
      have hscan : scanLines ((c :: rest) ++ [Tally.nlCh, Tally.nlCh]) = [] := by
        unfold scanLines
        rw [show (c :: rest) ++ [Tally.nlCh, Tally.nlCh] =
          c :: (rest ++ [Tally.nlCh, Tally.nlCh]) from rfl]
        simp [scanTokensFuel, hidx, hW']
      unfold countLines
      rw [hscan]
      rfl

set_option maxHeartbeats 1000000 in
/-- C8 (amended): for every non-empty buffer that does not end in a newline
and whose lines are all below the scanner's 64 KiB token-size limit, one
appended `\n` leaves all three counts of `countLines` unchanged, and a
second appended `\n` adds exactly one to the total count and one to the
blank count, leaving the comment count unchanged. -/
theorem countLines_trailing_newline (content : List Char) (h1 : content ≠ [])
    (h2 : content.getLast? ≠ some Tally.nlCh) (h3 : linesWithinLimit content) :
    countLines (content ++ [Tally.nlCh]) = countLines content ∧
    (countLines (content ++ [Tally.nlCh, Tally.nlCh])).total =
      (countLines content).total + 1 ∧
    (countLines (content ++ [Tally.nlCh, Tally.nlCh])).blank =
      (countLines content).blank + 1 ∧
    (countLines (content ++ [Tally.nlCh, Tally.nlCh])).comments =
      (countLines content).comments := by
  have e0 : scanLines content = allLines content :=
    scanTokensFuel_eq_allLines content.length content le_rfl h3
  have e1 : scanLines (content ++ [Tally.nlCh]) =
      allLines (content ++ [Tally.nlCh]) :=
    scanTokensFuel_eq_allLines _ _ le_rfl (linesWithinLimit_append_nl content h3)
  have e2 : scanLines (content ++ [Tally.nlCh, Tally.nlCh]) =
      allLines (content ++ [Tally.nlCh, Tally.nlCh]) :=
    scanTokensFuel_eq_allLines _ _ le_rfl
      (linesWithinLimit_append_two_nl content h3)
  have hone : countLines (content ++ [Tally.nlCh]) = countLines content := by
    unfold countLines
    rw [e1, e0, allLines_append_nl content h1 h2]
  have htwo : countLines (content ++ [Tally.nlCh, Tally.nlCh]) =
      countStep (countLines content) [] := by
    unfold countLines lineStatsOf
    rw [e2, allLines_append_two_nl content h1 h2, List.foldl_append, ← e0]
    rfl
  refine ⟨hone, ?_, ?_, ?_⟩ <;>
    · rw [htwo]
      rfl

/-- Closed instance of `countLines_trailing_newline` on the buffer `abc`,
with all three hypotheses discharged on the concrete input. -/
theorem countLines_trailing_newline_witness :
    countLines (['a', 'b', 'c'] ++ [Tally.nlCh]) = countLines ['a', 'b', 'c'] ∧
    (countLines (['a', 'b', 'c'] ++ [Tally.nlCh, Tally.nlCh])).total =
      (countLines ['a', 'b', 'c']).total + 1 ∧
    (countLines (['a', 'b', 'c'] ++ [Tally.nlCh, Tally.nlCh])).blank =
      (countLines ['a', 'b', 'c']).blank + 1 ∧
    (countLines (['a', 'b', 'c'] ++ [Tally.nlCh, Tally.nlCh])).comments =
      (countLines ['a', 'b', 'c']).comments :=
  countLines_trailing_newline ['a', 'b', 'c'] (by decide) (by decide)
    (by unfold linesWithinLimit maxScanTokenSize; decide)

/-- C8 counterexample: the empty buffer does not end in a newline, yet
appending a single `\n` changes the counts (one blank line appears), so the
claim fails without the non-emptiness restriction. -/
theorem countLines_empty_counterexample :
    (([] : List Char).getLast? ≠ some Tally.nlCh) ∧
    countLines ([] ++ [Tally.nlCh]) ≠ countLines ([] : List Char) ∧
    countLines [Tally.nlCh] = ⟨1, 1, 0⟩ ∧
    countLines ([] : List Char) = ⟨0, 0, 0⟩ := by
  refine ⟨by decide, by decide, by decide, by decide⟩

end Tally.Dockerfile

namespace Tally.Fixes

set_option maxRecDepth 40000 in
set_option maxHeartbeats 1000000 in
/-- C3: for `FROM alpine AS Builder` / `FROM Builder`, the enriched
StageNameCasing violation carries a preferred `Safe` fix with two edits
(more than one): the alias occurrence on the definition line (line 1,
columns 15–22) is lowercased, and the `FROM Builder` reference (line 2,
columns 5–12) is lowercased too; applying the fix leaves no occurrence of
the old-cased name, so no dangling references remain. -/
theorem stageNameCasing_fix_spec :
    (enrichStageNameCasingFix c3Violation (some c3Model) c3Source).fix =
      some { description := "Rename stage " ++ sqStr ++ "Builder" ++ sqStr ++
               " to " ++ sqStr ++ "builder" ++ sqStr
             safety := Tally.DL4006.FixSafety.safe
             edits := [⟨0, 15, 0, 22, "builder"⟩, ⟨1, 5, 1, 12, "builder"⟩]
             isPreferred := true } ∧
    applyEdits c3Source [⟨0, 15, 0, 22, "builder"⟩, ⟨1, 5, 1, 12, "builder"⟩] =
      "FROM alpine AS builder\nFROM builder" ∧
    containsSubstr
      (applyEdits c3Source [⟨0, 15, 0, 22, "builder"⟩, ⟨1, 5, 1, 12, "builder"⟩])
      "Builder" = false := by
  refine ⟨by decide, by decide, by decide⟩

end Tally.Fixes

namespace Tally.Shell

/-- The pick-first-command loop is the basename of a `find?` over the skip
predicate. -/
theorem pickCmd_eq_find (l : List (List Char)) :
    pickCmd l = (l.find? fun t =>
        !(t.contains '=' && !Tally.leadsWith ['-'] t) &&
          !Tally.leadsWith ['-'] t).map Tally.goPathBaseL := by
  induction l with
  | nil => rfl
  | cons t rest ih =>
    by_cases hmem : '=' ∈ t <;>
      by_cases hlead : Tally.leadsWith ['-'] t = true <;>
      simp [pickCmd, List.find?_cons, hmem, hlead, ih]

set_option maxHeartbeats 2000000 in
/-- C7 (amended): whenever the structured parser fails, `CommandNames`
falls back to the word split: operators, `(` and newlines become segment
breaks, `)` and backslash-newline become whitespace, and each segment
contributes the path basename of its first token that is neither a
`VAR=value` assignment nor a `-` flag. -/
theorem commandNames_fallback_spec :
    ∀ (parseOracle : String → Option (List String)) (script : String),
      parseOracle script = none →
      CommandNames parseOracle script = amendedFallback script := by
  intro p script h
  unfold CommandNames
  rw [h]
  unfold simpleCommandNames amendedFallback
  rw [List.map_filterMap]
  apply List.filterMap_congr
  intro seq _
  cases hg : Tally.goTrimSpace seq with
  | nil => simp [hg, Tally.goFields, Tally.goFieldsAux]
  | cons c cs =>
    simp [hg, pickCmd_eq_find, Option.map_map]
    rfl

/-- Closed instance of `commandNames_fallback_spec` on a concrete script,
with the parse-failure hypothesis discharged on the constant-failure
oracle. -/
theorem commandNames_fallback_spec_witness :
    CommandNames (fun _ => none) "echo hi && env A=1 ls -la /tmp" =
      amendedFallback "echo hi && env A=1 ls -la /tmp" :=
  commandNames_fallback_spec (fun _ => none)
    "echo hi && env A=1 ls -la /tmp" rfl

/-- C7 counterexample: on the script `a)b` (a shell syntax error, hence a
parse failure), the fallback keeps `a b` in a single segment — `)` is
turned into whitespace, not a segment break — so `CommandNames` yields
`[a]`, while the claim's literal split at parentheses would yield
`[a, b]`. -/
theorem commandNames_fallback_counterexample :
    CommandNames (fun _ => none) "a)b" = ["a"] ∧
    claimFallback "a)b" = ["a", "b"] ∧
    (["a"] : List String) ≠ ["a", "b"] := by
  refine ⟨by decide, by decide, by decide⟩

end Tally.Shell
